import Mathlib

/-!
Verification of the branch-protection setup script
(`scripts/setup-branch-protection.py`).

The development shallowly embeds the script: the pure URL-parsing core of
`get_repo_info` is modelled over `List Char` with Python string semantics
(`in`, `str.replace`, `str.split`, `str.strip`, `str.lower`), and the
effectful `main` flow is modelled as a pure function from an environment
record (environment variables, the git subprocess result, the interactive
prompt line, and the two HTTP responses) to a trace of observable events
(printed messages and outbound network requests) together with a process
outcome (exit code or uncaught exception).
-/

namespace BranchProtection

/-! ### Python string primitives over `List Char` -/

/-- Boolean test that `p` is a prefix of `s`. -/
def isPrefixB : List Char → List Char → Bool
  | [], _ => true
  | _ :: _, [] => false
  | p :: ps, c :: cs => p == c && isPrefixB ps cs

/-- Drop the pattern `ps` from the front of `s`, returning the remainder
if `ps` is a prefix of `s`. -/
def dropPre : List Char → List Char → Option (List Char)
  | [], s => some s
  | _ :: _, [] => none
  | p :: ps, c :: cs => if p == c then dropPre ps cs else none

/-- If the nonempty pattern `p :: ps` matches at the head of `s`, return the
remainder of `s` after the match. -/
def matchAt (p : Char) (ps : List Char) : List Char → Option (List Char)
  | [] => none
  | c :: cs => if p == c then dropPre ps cs else none

/-- Python substring containment: `pat in s`. -/
def strContains (pat : List Char) : List Char → Bool
  | [] => isPrefixB pat []
  | c :: cs => isPrefixB pat (c :: cs) || strContains pat cs

/-- Fuel-driven worker for Python `s.replace(pat, "")` with nonempty
pattern `p :: ps`: scan left to right, deleting non-overlapping matches. -/
def pyReplaceF (p : Char) (ps : List Char) : Nat → List Char → List Char
  | 0, s => s
  | fuel + 1, s =>
    match matchAt p ps s with
    | some rest => pyReplaceF p ps fuel rest
    | none =>
      match s with
      | [] => []
      | c :: cs => c :: pyReplaceF p ps fuel cs

/-- Python `s.replace(p :: ps, "")`. -/
def pyReplace (p : Char) (ps : List Char) (s : List Char) : List Char :=
  pyReplaceF p ps s.length s

/-- Fuel-driven worker for Python `s.split(pat)` with nonempty pattern
`p :: ps`: split at non-overlapping leftmost matches. -/
def pySplitF (p : Char) (ps : List Char) : Nat → List Char → List (List Char)
  | 0, s => [s]
  | fuel + 1, s =>
    match matchAt p ps s with
    | some rest => [] :: pySplitF p ps fuel rest
    | none =>
      match s with
      | [] => [[]]
      | c :: cs =>
        match pySplitF p ps fuel cs with
        | [] => [[c]]
        | l :: ls => (c :: l) :: ls

/-- Python `s.split(p :: ps)`. -/
def pySplit (p : Char) (ps : List Char) (s : List Char) : List (List Char) :=
  pySplitF p ps s.length s

/-- Python whitespace, as stripped by `str.strip()`. -/
def isPySpace (c : Char) : Bool :=
  c == ' ' || c == '\t' || c == '\n' || c == '\r' ||
    c == Char.ofNat 11 || c == Char.ofNat 12

/-- Python `s.strip()`. -/
def pyStrip (s : List Char) : List Char :=
  ((s.dropWhile isPySpace).reverse.dropWhile isPySpace).reverse

/-- ASCII lowering of one character, as `str.lower()` acts on ASCII. -/
def lowerChar (c : Char) : Char :=
  if 65 ≤ c.toNat ∧ c.toNat ≤ 90 then Char.ofNat (c.toNat + 32) else c

/-- Python `s.lower()` (ASCII fragment). -/
def pyLower (s : List Char) : List Char := s.map lowerChar

/-- Prepend `s` to the head chunk of a split result. -/
def mapHd (s : List Char) : List (List Char) → List (List Char)
  | [] => [s]
  | l :: ls => (s ++ l) :: ls

/-! ### `get_repo_info`: parsing the remote URL -/

/-- Result of the remote-URL parsing step of `get_repo_info`: either the
`(owner, repo)` pair, the `(None, None)` pair, or an uncaught `IndexError`
raised by indexing `[1]` into a too-short split list. -/
inductive ParseResult where
  | ok (owner repo : List Char)
  | nonePair
  | indexError
deriving DecidableEq

/-- The parsing step of `get_repo_info` applied to the trimmed remote URL:
check `"github.com" in remote_url`, delete every occurrence of `".git"`,
then split on `"github.com/"` (HTTPS style) or on `":"` (SSH style) and
take components `[0]` and `[1]` of the final `"/"`-split. -/
def parseRemote (url : List Char) : ParseResult :=
  if strContains ("github.com".toList) url then
    let u := pyReplace '.' ("git".toList) url
    if strContains ("https://".toList) u then
      match (pySplit 'g' ("ithub.com/".toList) u)[1]? with
      | none => .indexError
      | some seg =>
        let parts := pySplit '/' [] seg
        if 2 ≤ parts.length then .ok (parts.getD 0 []) (parts.getD 1 []) else .nonePair
    else
      match (pySplit ':' [] u)[1]? with
      | none => .indexError
      | some seg =>
        let parts := pySplit '/' [] seg
        if 2 ≤ parts.length then .ok (parts.getD 0 []) (parts.getD 1 []) else .nonePair
  else .nonePair

/-- `get_repo_info`: run `git remote get-url origin` (modelled as an
`Except` value, `.error` being a `CalledProcessError`), trim its standard
output, and parse it. -/
def get_repo_info (cli : Except Unit (List Char)) : ParseResult :=
  match cli with
  | .error _ => .nonePair
  | .ok stdout => parseRemote (pyStrip stdout)

/-! ### The static protection policy (`PROTECTION_CONFIG`) -/

structure RequiredStatusChecks where
  strict : Bool
  contexts : List String
deriving DecidableEq

structure RequiredPullRequestReviews where
  dismiss_stale_reviews : Bool
  require_code_owner_reviews : Bool
  required_approving_review_count : Nat
  require_last_push_approval : Bool
  dismissal_restrictions : Unit
deriving DecidableEq

structure ProtectionConfig where
  required_status_checks : RequiredStatusChecks
  enforce_admins : Bool
  required_pull_request_reviews : RequiredPullRequestReviews
  restrictions : Option Unit
  required_linear_history : Bool
  allow_force_pushes : Bool
  allow_deletions : Bool
  required_conversation_resolution : Bool
  lock_branch : Bool
  allow_fork_syncing : Bool
deriving DecidableEq

/-- The static branch-protection policy record of the script. -/
def PROTECTION_CONFIG : ProtectionConfig where
  required_status_checks := { strict := true, contexts := ["quality", "deploy"] }
  enforce_admins := true
  required_pull_request_reviews :=
    { dismiss_stale_reviews := true
      require_code_owner_reviews := false
      required_approving_review_count := 1
      require_last_push_approval := true
      dismissal_restrictions := () }
  restrictions := none
  required_linear_history := true
  allow_force_pushes := false
  allow_deletions := false
  required_conversation_resolution := true
  lock_branch := false
  allow_fork_syncing := true

def jsonBool : Bool → String
  | true => "true"
  | false => "false"

def joinCommaSpace : List String → String
  | [] => ""
  | [x] => x
  | x :: xs => x ++ ", " ++ joinCommaSpace xs

def jsonStr (s : String) : String := "\"" ++ s ++ "\""

/-- The JSON serialization of the policy, as `json.dumps` produces it from
the script's dict (insertion order, default separators). -/
def jsonDumps (c : ProtectionConfig) : String :=
  "\x7b" ++
  "\"required_status_checks\": \x7b\"strict\": " ++
    jsonBool c.required_status_checks.strict ++
  ", \"contexts\": [" ++
    joinCommaSpace (c.required_status_checks.contexts.map jsonStr) ++ "]\x7d" ++
  ", \"enforce_admins\": " ++ jsonBool c.enforce_admins ++
  ", \"required_pull_request_reviews\": \x7b\"dismiss_stale_reviews\": " ++
    jsonBool c.required_pull_request_reviews.dismiss_stale_reviews ++
  ", \"require_code_owner_reviews\": " ++
    jsonBool c.required_pull_request_reviews.require_code_owner_reviews ++
  ", \"required_approving_review_count\": " ++
    toString c.required_pull_request_reviews.required_approving_review_count ++
  ", \"require_last_push_approval\": " ++
    jsonBool c.required_pull_request_reviews.require_last_push_approval ++
  ", \"dismissal_restrictions\": \x7b\x7d\x7d" ++
  ", \"restrictions\": " ++
    (match c.restrictions with
     | none => "null"
     | some _ => "\x7b\x7d") ++
  ", \"required_linear_history\": " ++ jsonBool c.required_linear_history ++
  ", \"allow_force_pushes\": " ++ jsonBool c.allow_force_pushes ++
  ", \"allow_deletions\": " ++ jsonBool c.allow_deletions ++
  ", \"required_conversation_resolution\": " ++
    jsonBool c.required_conversation_resolution ++
  ", \"lock_branch\": " ++ jsonBool c.lock_branch ++
  ", \"allow_fork_syncing\": " ++ jsonBool c.allow_fork_syncing ++
  "\x7d"

/-! ### Observable events and process outcomes -/

/-- The digest of the GET response body that `verify_protection` prints. -/
structure VerifyDigest where
  contexts : List (List Char)
  required_approving_review_count : Nat
  enforce_admins : Bool
  required_linear_history : Bool
deriving DecidableEq

/-- An HTTP call result: a response (status, text, parsed JSON digest when
the body parses) or a raised `requests.exceptions.RequestException`. -/
inductive NetRes where
  | ok (status : Nat) (text : List Char) (jsonData : Option VerifyDigest)
  | exn (e : List Char)
deriving DecidableEq

/-- One printed message, identified by the print statement that produces it,
carrying the dynamic values interpolated into it. -/
inductive Msg where
  | headerSetup
  | autoDetectInfo
  | usageError
  | tokenMissingError
  | repoLine (owner repo : List Char)
  | branchLine (branch : List Char)
  | configDisplay
  | applying
  | applySuccess
  | authFailedError
  | authTokenInfo
  | authScopeInfo
  | permissionError
  | notFoundError (owner repo branch : List Char)
  | notFoundInfo
  | genericError (status : Nat) (text : List Char)
  | requestFailedError (e : List Char)
  | summaryLines (owner repo : List Char)
  | verifying
  | verifySuccess (d : VerifyDigest)
  | verifyWarning
  | verifyRequestFailedWarning
  | cancelledWarning
  | blank
  | cancelledByUser
  | headerComplete
  | headerFailed
deriving DecidableEq

/-- An observable event: a printed message or an outbound HTTP request. -/
inductive Event where
  | out (m : Msg)
  | putReq (url : List Char) (auth : List Char) (body : String)
  | getReq (url : List Char) (auth : List Char)
deriving DecidableEq

inductive PyExn where
  | indexError
  | keyboardInterrupt
deriving DecidableEq

inductive Outcome where
  | exited (code : Nat)
  | raised (e : PyExn)
deriving DecidableEq

structure RunResult where
  trace : List Event
  outcome : Outcome
deriving DecidableEq

/-! ### The script's effectful flow -/

/-- The constant branch the script operates on. -/
def BRANCH : List Char := "master".toList

/-- The endpoint template used by both the PUT and the GET. -/
def protection_url (owner repo branch : List Char) : List Char :=
  "https://api.github.com/repos/".toList ++ owner ++ "/".toList ++ repo ++
    "/branches/".toList ++ branch ++ "/protection".toList

/-- The Authorization header value. -/
def bearerAuth (token : List Char) : List Char := "Bearer ".toList ++ token

/-- `apply_branch_protection`: the PUT attempt followed by the status-code
dispatch; returns the events plus the boolean result. -/
def apply_branch_protection (owner repo branch token : List Char) (res : NetRes) :
    List Event × Bool :=
  let url := protection_url owner repo branch
  let attempt : List Event :=
    [.out .applying, .out .blank,
     .putReq url (bearerAuth token) (jsonDumps PROTECTION_CONFIG)]
  match res with
  | .ok status text _ =>
    if status = 200 then (attempt ++ [.out .applySuccess], true)
    else if status = 401 then
      (attempt ++ [.out .authFailedError, .out .authTokenInfo, .out .authScopeInfo], false)
    else if status = 403 then (attempt ++ [.out .permissionError], false)
    else if status = 404 then
      (attempt ++ [.out (.notFoundError owner repo branch), .out .notFoundInfo], false)
    else (attempt ++ [.out (.genericError status text)], false)
  | .exn e => (attempt ++ [.out (.requestFailedError e)], false)

/-- `verify_protection`: the GET attempt followed by the digest print on a
parsed 200 response, or a warning on any failure. -/
def verify_protection (owner repo branch token : List Char) (res : NetRes) :
    List Event :=
  [.out .verifying, .getReq (protection_url owner repo branch) (bearerAuth token)] ++
  match res with
  | .ok status _ jsonData =>
    if status = 200 then
      match jsonData with
      | some d => [.out (.verifySuccess d)]
      | none => [.out .verifyRequestFailedWarning]
    else [.out .verifyWarning]
  | .exn _ => [.out .verifyRequestFailedWarning]

/-- The environment a run of the script observes: the three environment
variables (empty string when unset), the git subprocess result, the
confirmation prompt line (`none` models an interrupt while blocked on
input), and the two HTTP call results. -/
structure Env where
  ownerEnv : List Char
  repoEnv : List Char
  tokenEnv : List Char
  gitRemote : Except Unit (List Char)
  promptResponse : Option (List Char)
  putResponse : NetRes
  getResponse : NetRes

/-- The tail of `main` once coordinates are determined: token check,
policy display, confirmation prompt, apply, then summary and verification
on success. -/
def mainWithCoords (env : Env) (t : List Event) (owner repo : List Char) :
    RunResult :=
  if env.tokenEnv = [] then ⟨t ++ [.out .tokenMissingError], .exited 1⟩
  else
    let t2 := t ++ [.out (.repoLine owner repo), .out (.branchLine BRANCH),
      .out .configDisplay]
    match env.promptResponse with
    | none => ⟨t2, .raised .keyboardInterrupt⟩
    | some line =>
      if pyLower line = "y".toList ∨ pyLower line = "yes".toList then
        let ab := apply_branch_protection owner repo BRANCH env.tokenEnv env.putResponse
        if ab.2 then
          ⟨t2 ++ ab.1 ++ [.out (.summaryLines owner repo)] ++
            verify_protection owner repo BRANCH env.tokenEnv env.getResponse ++
            [.out .headerComplete], .exited 0⟩
        else ⟨t2 ++ ab.1 ++ [.out .headerFailed], .exited 1⟩
      else ⟨t2 ++ [.out .cancelledWarning], .exited 0⟩

/-- `main`: header, coordinate resolution (environment variables with git
auto-detection fallback), then `mainWithCoords`. -/
def main (env : Env) : RunResult :=
  let t0 : List Event := [.out .headerSetup]
  if env.ownerEnv = [] ∨ env.repoEnv = [] then
    let t1 := t0 ++ [.out .autoDetectInfo]
    match get_repo_info env.gitRemote with
    | .indexError => ⟨t1, .raised .indexError⟩
    | .nonePair => ⟨t1 ++ [.out .usageError], .exited 1⟩
    | .ok o r =>
      if o = [] ∨ r = [] then ⟨t1 ++ [.out .usageError], .exited 1⟩
      else mainWithCoords env t1 o r
  else mainWithCoords env t0 env.ownerEnv env.repoEnv

/-- The `__main__` guard: run `main`, catching `KeyboardInterrupt` (printing
a short notice and exiting 0); any other exception propagates. -/
def entryPoint (env : Env) : RunResult :=
  let r := main env
  match r.outcome with
  | .raised .keyboardInterrupt =>
    ⟨r.trace ++ [.out .blank, .out .cancelledByUser], .exited 0⟩
  | o => ⟨r.trace, o⟩

/-! ### Trace observations -/

def isNetEvent : Event → Bool
  | .putReq _ _ _ => true
  | .getReq _ _ => true
  | .out _ => false

/-- The network calls in a trace. -/
def netEvents (t : List Event) : List Event := t.filter isNetEvent

/-- The URLs of the network calls in a trace. -/
def netUrls (t : List Event) : List (List Char) :=
  t.filterMap fun e => match e with
    | .putReq u _ _ => some u
    | .getReq u _ => some u
    | .out _ => none

/-- The JSON bodies of the PUT calls in a trace. -/
def putBodies (t : List Event) : List String :=
  t.filterMap fun e => match e with
    | .putReq _ _ b => some b
    | _ => none

/-- The Authorization header values of all network calls in a trace. -/
def netAuths (t : List Event) : List (List Char) :=
  t.filterMap fun e => match e with
    | .putReq _ a _ => some a
    | .getReq _ a => some a
    | .out _ => none

/-- The printed messages of a trace. -/
def outMsgs (t : List Event) : List Msg :=
  t.filterMap fun e => match e with
    | .out m => some m
    | _ => none

/-- A verification-step failure: non-200 status, unparseable body, or a
transport exception. -/
def verifyFailed : NetRes → Prop
  | .ok status _ jsonData => status ≠ 200 ∨ jsonData = none
  | .exn _ => True

/-! ### Basic facts about the primitives -/

theorem dropPre_length {ps s r : List Char} (h : dropPre ps s = some r) :
    r.length ≤ s.length := by
  induction ps generalizing s r with
  | nil => simp only [dropPre, Option.some.injEq] at h; subst h; exact le_rfl
  | cons p ps ih =>
    cases s with
    | nil => simp [dropPre] at h
    | cons c cs =>
      simp only [dropPre] at h
      split at h
      · exact (ih h).trans (Nat.le_succ _)
      · exact absurd h (by simp)

theorem matchAt_length {p : Char} {ps s r : List Char}
    (h : matchAt p ps s = some r) : r.length < s.length := by
  cases s with
  | nil => simp [matchAt] at h
  | cons c cs =>
    simp only [matchAt] at h
    split at h
    · exact Nat.lt_succ_of_le (dropPre_length h)
    · exact absurd h (by simp)

theorem dropPre_eq_some_iff {ps s r : List Char} :
    dropPre ps s = some r ↔ s = ps ++ r := by
  induction ps generalizing s with
  | nil => simp [dropPre, eq_comm]
  | cons p ps ih =>
    cases s with
    | nil => simp [dropPre]
    | cons c cs =>
      simp only [dropPre, List.cons_append, List.cons.injEq]
      constructor
      · intro h
        split at h
        · next hpc => exact ⟨(beq_iff_eq.mp hpc).symm, ih.mp h⟩
        · exact absurd h (by simp)
      · rintro ⟨rfl, h⟩
        simp [ih.mpr h]

theorem matchAt_eq_some_iff {p : Char} {ps s r : List Char} :
    matchAt p ps s = some r ↔ s = p :: (ps ++ r) := by
  cases s with
  | nil => simp [matchAt]
  | cons c cs =>
    simp only [matchAt, List.cons.injEq]
    constructor
    · intro h
      split at h
      · next hpc => exact ⟨(beq_iff_eq.mp hpc).symm, dropPre_eq_some_iff.mp h⟩
      · exact absurd h (by simp)
    · rintro ⟨rfl, h⟩
      simp [dropPre_eq_some_iff.mpr h]

theorem isPrefixB_iff {p s : List Char} : isPrefixB p s = true ↔ p <+: s := by
  induction p generalizing s with
  | nil => simp [isPrefixB]
  | cons a p ih =>
    cases s with
    | nil => simp [isPrefixB]
    | cons b s => simp [isPrefixB, ih, List.cons_prefix_cons]

theorem strContains_iff {pat s : List Char} :
    strContains pat s = true ↔ pat <:+: s := by
  induction s with
  | nil =>
    cases pat with
    | nil => simp [strContains, isPrefixB]
    | cons a p => simp [strContains, isPrefixB]
  | cons c cs ih =>
    simp [strContains, ih, isPrefixB_iff, List.infix_cons_iff]

/-- The fuel-driven replace does not depend on the fuel once the fuel covers
the length of the input. -/
theorem pyReplaceF_congr {p : Char} {ps : List Char} :
    ∀ f1 f2 s, s.length ≤ f1 → s.length ≤ f2 →
      pyReplaceF p ps f1 s = pyReplaceF p ps f2 s := by
  intro f1
  induction f1 using Nat.strong_induction_on with
  | _ f1 ih =>
    intro f2 s h1 h2
    match f1, s with
    | 0, s =>
      have : s = [] := List.length_eq_zero.mp (Nat.le_zero.mp h1)
      subst this
      cases f2 with
      | zero => rfl
      | succ g => simp [pyReplaceF, matchAt]
    | f1 + 1, [] =>
      cases f2 with
      | zero => simp [pyReplaceF, matchAt]
      | succ g => simp [pyReplaceF, matchAt]
    | f1 + 1, c :: cs =>
      cases f2 with
      | zero => simp at h2
      | succ g =>
        simp only [pyReplaceF]
        cases h : matchAt p ps (c :: cs) with
        | some r =>
          have hr := matchAt_length h
          simp only [List.length_cons] at h1 h2 hr
          exact ih f1 (Nat.lt_succ_self _) g r (by omega) (by omega)
        | none =>
          simp only [List.length_cons] at h1 h2
          exact congrArg (c :: ·) (ih f1 (Nat.lt_succ_self _) g cs (by omega) (by omega))

/-- With fuel at least the length of the input, the fuel-driven replace
agrees with `pyReplace`. -/
theorem pyReplaceF_fuel {p : Char} {ps : List Char} (fuel : Nat) (s : List Char)
    (h : s.length ≤ fuel) : pyReplaceF p ps fuel s = pyReplace p ps s :=
  pyReplaceF_congr fuel s.length s h le_rfl

theorem pySplitF_congr {p : Char} {ps : List Char} :
    ∀ f1 f2 s, s.length ≤ f1 → s.length ≤ f2 →
      pySplitF p ps f1 s = pySplitF p ps f2 s := by
  intro f1
  induction f1 using Nat.strong_induction_on with
  | _ f1 ih =>
    intro f2 s h1 h2
    match f1, s with
    | 0, s =>
      have : s = [] := List.length_eq_zero.mp (Nat.le_zero.mp h1)
      subst this
      cases f2 with
      | zero => rfl
      | succ g => simp [pySplitF, matchAt]
    | f1 + 1, [] =>
      cases f2 with
      | zero => simp [pySplitF, matchAt]
      | succ g => simp [pySplitF, matchAt]
    | f1 + 1, c :: cs =>
      cases f2 with
      | zero => simp at h2
      | succ g =>
        simp only [pySplitF]
        cases h : matchAt p ps (c :: cs) with
        | some r =>
          have hr := matchAt_length h
          simp only [List.length_cons] at h1 h2 hr
          exact congrArg ([] :: ·) (ih f1 (Nat.lt_succ_self _) g r (by omega) (by omega))
        | none =>
          simp only [List.length_cons] at h1 h2
          exact congrArg
            (fun x => match x with | [] => [[c]] | l :: ls => (c :: l) :: ls)
            (ih f1 (Nat.lt_succ_self _) g cs (by omega) (by omega))

theorem pySplitF_fuel {p : Char} {ps : List Char} (fuel : Nat) (s : List Char)
    (h : s.length ≤ fuel) : pySplitF p ps fuel s = pySplit p ps s :=
  pySplitF_congr fuel s.length s h le_rfl

/-! Equation lemmas for `pyReplace` and `pySplit`. -/

theorem pyReplace_nil {p : Char} {ps : List Char} : pyReplace p ps [] = [] := rfl

theorem pyReplace_match {p : Char} {ps s r : List Char}
    (h : matchAt p ps s = some r) : pyReplace p ps s = pyReplace p ps r := by
  cases s with
  | nil => simp [matchAt] at h
  | cons c cs =>
    have hr := matchAt_length h
    rw [pyReplace]
    simp only [List.length_cons, pyReplaceF, h]
    exact pyReplaceF_fuel _ _ (by have := hr; simp at this ⊢; omega)

theorem pyReplace_nomatch {p : Char} {ps : List Char} {c : Char} {cs : List Char}
    (h : matchAt p ps (c :: cs) = none) :
    pyReplace p ps (c :: cs) = c :: pyReplace p ps cs := by
  rw [pyReplace]
  simp only [List.length_cons, pyReplaceF, h]
  exact congrArg (c :: ·) (pyReplaceF_fuel _ _ le_rfl)

theorem pySplit_nil {p : Char} {ps : List Char} : pySplit p ps [] = [[]] := rfl

theorem pySplit_match {p : Char} {ps s r : List Char}
    (h : matchAt p ps s = some r) : pySplit p ps s = [] :: pySplit p ps r := by
  cases s with
  | nil => simp [matchAt] at h
  | cons c cs =>
    have hr := matchAt_length h
    rw [pySplit]
    simp only [List.length_cons, pySplitF, h]
    rw [pySplitF_fuel _ _ (by have := hr; simp at this ⊢; omega)]

theorem pySplit_nomatch {p : Char} {ps : List Char} {c : Char} {cs : List Char}
    (h : matchAt p ps (c :: cs) = none) :
    pySplit p ps (c :: cs) =
      match pySplit p ps cs with
      | [] => [[c]]
      | l :: ls => (c :: l) :: ls := by
  rw [pySplit]
  simp only [List.length_cons, pySplitF, h]
  rw [pySplitF_fuel _ _ le_rfl]

theorem pySplit_ne_nil {p : Char} {ps s : List Char} : pySplit p ps s ≠ [] := by
  cases h : matchAt p ps s with
  | some r => rw [pySplit_match h]; simp
  | none =>
    cases s with
    | nil => rw [pySplit_nil]; simp
    | cons c cs =>
      rw [pySplit_nomatch h]
      cases pySplit p ps cs <;> simp

/-! ### List decomposition helpers -/

theorem mem_of_cons_suffix {α : Type} {a : α} {l s : List α} (h : a :: l <:+ s) :
    a ∈ s := by
  obtain ⟨u, rfl⟩ := h
  simp

/-- An occurrence of a pattern not containing `m` inside `xs ++ m :: ys`
lies entirely inside `xs` or entirely inside `ys`. -/
theorem infix_append_cons {α : Type} {pat xs ys : List α} {m : α}
    (h : pat <:+: xs ++ m :: ys) (hm : m ∉ pat) :
    pat <:+: xs ∨ pat <:+: ys := by
  obtain ⟨u, v, huv⟩ := h
  rw [List.append_assoc] at huv
  rcases List.append_eq_append_iff.mp huv with ⟨w, hxs, hw⟩ | ⟨w, hu, hw⟩
  · rcases List.append_eq_append_iff.mp hw with ⟨z, hwz, hv⟩ | ⟨z, hpat, hz⟩
    · exact Or.inl ⟨u, z, by rw [hxs, hwz, List.append_assoc]⟩
    · cases z with
      | nil =>
        rw [List.append_nil] at hpat
        exact Or.inl ⟨u, [], by rw [hxs, hpat, List.append_nil]⟩
      | cons e z =>
        exfalso
        apply hm
        cases hz
        rw [hpat]
        simp
  · cases w with
    | nil =>
      simp only [List.nil_append] at hw
      cases pat with
      | nil => exact Or.inl ⟨xs, [], by simp⟩
      | cons e pat =>
        exfalso
        apply hm
        cases hw
        simp
    | cons e w =>
      cases hw
      exact Or.inr ⟨w, v, by simp⟩

theorem single_infix_mem {α : Type} {a : α} {l : List α} : [a] <:+: l ↔ a ∈ l := by
  constructor
  · rintro ⟨u, v, rfl⟩
    simp
  · intro h
    obtain ⟨u, v, rfl⟩ := List.append_of_mem h
    exact ⟨u, v, by simp⟩

/-! ### Behaviour of `pyReplace` and `pySplit` on structured inputs -/

theorem pyReplace_no_occur {p : Char} {ps s : List Char}
    (h : ¬ (p :: ps) <:+: s) : pyReplace p ps s = s := by
  induction s with
  | nil => exact pyReplace_nil
  | cons c cs ih =>
    cases hm : matchAt p ps (c :: cs) with
    | some r =>
      exact absurd ⟨[], r, by simp [matchAt_eq_some_iff.mp hm]⟩ h
    | none =>
      rw [pyReplace_nomatch hm,
        ih (fun hin => h (List.infix_cons_iff.mpr (Or.inr hin)))]

theorem pySplit_no_occur {p : Char} {ps s : List Char}
    (h : ¬ (p :: ps) <:+: s) : pySplit p ps s = [s] := by
  induction s with
  | nil => exact pySplit_nil
  | cons c cs ih =>
    cases hm : matchAt p ps (c :: cs) with
    | some r =>
      exact absurd ⟨[], r, by simp [matchAt_eq_some_iff.mp hm]⟩ h
    | none =>
      rw [pySplit_nomatch hm, ih (fun hin => h (List.infix_cons_iff.mpr (Or.inr hin)))]

theorem pyReplace_append {p : Char} {ps s t : List Char}
    (H : ∀ s₂, s₂ ≠ [] → s₂ <:+ s → ¬ (p :: ps) <+: (s₂ ++ t)) :
    pyReplace p ps (s ++ t) = s ++ pyReplace p ps t := by
  induction s with
  | nil => simp
  | cons c cs ih =>
    have hm : matchAt p ps (c :: (cs ++ t)) = none := by
      cases hm : matchAt p ps (c :: (cs ++ t)) with
      | none => rfl
      | some r =>
        exact absurd ⟨r, (matchAt_eq_some_iff.mp hm).symm⟩
          (H (c :: cs) (by simp) ⟨[], rfl⟩)
    rw [List.cons_append, pyReplace_nomatch hm,
      ih (fun s₂ h1 h2 => H s₂ h1 (h2.trans ⟨[c], rfl⟩)), List.cons_append]

theorem pySplit_append {p : Char} {ps s t : List Char}
    (H : ∀ s₂, s₂ ≠ [] → s₂ <:+ s → ¬ (p :: ps) <+: (s₂ ++ t)) :
    pySplit p ps (s ++ t) = mapHd s (pySplit p ps t) := by
  induction s with
  | nil =>
    cases h : pySplit p ps t with
    | nil => exact absurd h pySplit_ne_nil
    | cons l ls => simp [mapHd, h]
  | cons c cs ih =>
    have hm : matchAt p ps (c :: (cs ++ t)) = none := by
      cases hm : matchAt p ps (c :: (cs ++ t)) with
      | none => rfl
      | some r =>
        exact absurd ⟨r, (matchAt_eq_some_iff.mp hm).symm⟩
          (H (c :: cs) (by simp) ⟨[], rfl⟩)
    rw [List.cons_append, pySplit_nomatch hm,
      ih (fun s₂ h1 h2 => H s₂ h1 (h2.trans ⟨[c], rfl⟩))]
    cases h : pySplit p ps t with
    | nil => exact absurd h pySplit_ne_nil
    | cons l ls => simp [mapHd, h]

/-- Skipping a segment that does not contain the head character of the
pattern. -/
theorem pySplit_lit {p : Char} {ps s t : List Char} (hp : p ∉ s) :
    pySplit p ps (s ++ t) = mapHd s (pySplit p ps t) := by
  apply pySplit_append
  intro s₂ h1 h2 hpre
  rcases s₂ with _ | ⟨a, s₂⟩
  · exact h1 rfl
  · rw [List.cons_append, List.cons_prefix_cons] at hpre
    exact hp (hpre.1 ▸ mem_of_cons_suffix h2)

theorem pyReplace_exact {p : Char} {ps r : List Char} :
    pyReplace p ps (p :: (ps ++ r)) = pyReplace p ps r :=
  pyReplace_match (matchAt_eq_some_iff.mpr rfl)

theorem pySplit_exact {p : Char} {ps r : List Char} :
    pySplit p ps (p :: (ps ++ r)) = [] :: pySplit p ps r :=
  pySplit_match (matchAt_eq_some_iff.mpr rfl)

/-- Splitting `owner ++ "/" ++ repo` on `"/"` when neither side contains a
slash. -/
theorem pySplit_slash {o r : List Char} (ho : '/' ∉ o) (hr : '/' ∉ r) :
    pySplit '/' [] (o ++ '/' :: r) = [o, r] := by
  rw [pySplit_lit ho]
  have : ('/' :: r) = '/' :: (([] : List Char) ++ r) := by simp
  rw [this, pySplit_exact,
    pySplit_no_occur (fun hin => hr (single_infix_mem.mp hin))]
  simp [mapHd]

/-- The `".git"` pattern cannot overlap the boundary of `s ++ ".git"`:
any prefix match of `".git"` against `s₂ ++ ".git"` for a nonempty suffix
`s₂` of `s` would force `".git"` to occur inside `s`. -/
theorem dotgit_no_overlap {s : List Char} (h : ¬ ('.' :: "git".toList) <:+: s) :
    ∀ s₂, s₂ ≠ [] → s₂ <:+ s →
      ¬ ('.' :: "git".toList) <+: (s₂ ++ '.' :: "git".toList) := by
  intro s₂ h1 h2 hpre
  have hg : "git".toList = ['g', 'i', 't'] := rfl
  rw [hg] at hpre
  rcases s₂ with _ | ⟨a, _ | ⟨b, _ | ⟨c, _ | ⟨d, tl⟩⟩⟩⟩
  · exact h1 rfl
  · simp only [List.cons_append, List.nil_append, List.cons_prefix_cons] at hpre
    exact absurd hpre.2.1 (by decide)
  · simp only [List.cons_append, List.nil_append, List.cons_prefix_cons] at hpre
    exact absurd hpre.2.2.1 (by decide)
  · simp only [List.cons_append, List.nil_append, List.cons_prefix_cons] at hpre
    exact absurd hpre.2.2.2.1 (by decide)
  · simp only [List.cons_append, List.cons_prefix_cons] at hpre
    obtain ⟨e1, e2, e3, e4, _⟩ := hpre
    subst e1
    subst e2
    subst e3
    subst e4
    obtain ⟨u, hu⟩ := h2
    exact h ⟨u, tl, by rw [← hu, hg]; simp⟩

/-- Deleting the `".git"` occurrences of `s ++ ".git"` when `".git"` does
not occur in `s` yields `s`. -/
theorem pyReplace_dotgit_strip {s : List Char}
    (h : ¬ ('.' :: "git".toList) <:+: s) :
    pyReplace '.' "git".toList (s ++ '.' :: "git".toList) = s := by
  rw [pyReplace_append (dotgit_no_overlap h)]
  have : ('.' :: "git".toList) = '.' :: ("git".toList ++ []) := by simp
  rw [this, pyReplace_exact, pyReplace_nil, List.append_nil]

/-! ### The shapes of well-formed remote URLs -/

theorem not_dotgit_seg {o r : List Char}
    (hgo : ¬ ('.' :: "git".toList) <:+: o) (hgr : ¬ ('.' :: "git".toList) <:+: r) :
    ¬ ('.' :: "git".toList) <:+: (o ++ '/' :: r) := fun h =>
  (infix_append_cons h (by decide)).elim hgo hgr

theorem not_dotgit_https {o r : List Char}
    (hgo : ¬ ('.' :: "git".toList) <:+: o) (hgr : ¬ ('.' :: "git".toList) <:+: r) :
    ¬ ('.' :: "git".toList) <:+: ("https://github.com/".toList ++ (o ++ '/' :: r)) := by
  intro h
  have e : "https://github.com/".toList ++ (o ++ '/' :: r) =
      "https:".toList ++ '/' ::
        (([] : List Char) ++ '/' :: ("github.com".toList ++ '/' :: (o ++ '/' :: r))) := rfl
  rw [e] at h
  rcases infix_append_cons h (by decide) with h1 | h1
  · exact absurd h1 (by decide)
  rcases infix_append_cons h1 (by decide) with h2 | h2
  · exact absurd h2 (by decide)
  rcases infix_append_cons h2 (by decide) with h3 | h3
  · exact absurd h3 (by decide)
  exact not_dotgit_seg hgo hgr h3

theorem not_dotgit_ssh {o r : List Char}
    (hgo : ¬ ('.' :: "git".toList) <:+: o) (hgr : ¬ ('.' :: "git".toList) <:+: r) :
    ¬ ('.' :: "git".toList) <:+: ("git@github.com:".toList ++ (o ++ '/' :: r)) := by
  intro h
  have e : "git@github.com:".toList ++ (o ++ '/' :: r) =
      "git".toList ++ '@' :: ("github.com".toList ++ ':' :: (o ++ '/' :: r)) := rfl
  rw [e] at h
  rcases infix_append_cons h (by decide) with h1 | h1
  · exact absurd h1 (by decide)
  rcases infix_append_cons h1 (by decide) with h2 | h2
  · exact absurd h2 (by decide)
  exact not_dotgit_seg hgo hgr h2

/-- `"github.com/"` does not occur in `owner ++ "/" ++ repo` unless the
owner ends in `"github.com"`. -/
theorem ghsep_absent {o r : List Char} (ho : '/' ∉ o) (hr : '/' ∉ r)
    (hsuf : ¬ ("github.com".toList <:+ o)) :
    ¬ ('g' :: "ithub.com/".toList) <:+: (o ++ '/' :: r) := by
  intro h
  obtain ⟨u, v, huv⟩ := h
  have e : 'g' :: "ithub.com/".toList = "github.com".toList ++ ['/'] := rfl
  rw [e] at huv
  have huv2 : (u ++ "github.com".toList) ++ ('/' :: v) = o ++ ('/' :: r) := by
    rw [← huv]
    simp
  rcases List.append_eq_append_iff.mp huv2 with ⟨w, h1, h2⟩ | ⟨w, h1, h2⟩
  · cases w with
    | nil =>
      rw [List.append_nil] at h1
      exact hsuf ⟨u, h1.symm⟩
    | cons e w =>
      rw [List.cons_append] at h2
      injection h2 with he _
      apply ho
      rw [h1, ← he]
      simp
  · cases w with
    | nil =>
      rw [List.append_nil] at h1
      exact hsuf ⟨u, h1⟩
    | cons e w =>
      rw [List.cons_append] at h2
      injection h2 with he hr2
      apply hr
      rw [hr2]
      simp [← he]

/-- Splitting a well-formed HTTPS URL on `"github.com/"`. -/
theorem pySplit_github {o r : List Char} (ho : '/' ∉ o) (hr : '/' ∉ r)
    (hsuf : ¬ ("github.com".toList <:+ o)) :
    pySplit 'g' "ithub.com/".toList ("https://github.com/".toList ++ (o ++ '/' :: r)) =
      ["https://".toList, o ++ '/' :: r] := by
  have e : "https://github.com/".toList ++ (o ++ '/' :: r) =
      "https://".toList ++ ('g' :: ("ithub.com/".toList ++ (o ++ '/' :: r))) := rfl
  rw [e, pySplit_lit (by decide), pySplit_exact,
    pySplit_no_occur (ghsep_absent ho hr hsuf)]
  simp [mapHd]

/-- Splitting a well-formed SSH URL on `":"`. -/
theorem pySplit_colon_ssh {o r : List Char} (ho : ':' ∉ o) (hr : ':' ∉ r) :
    pySplit ':' [] ("git@github.com:".toList ++ (o ++ '/' :: r)) =
      ["git@github.com".toList, o ++ '/' :: r] := by
  have e : "git@github.com:".toList ++ (o ++ '/' :: r) =
      "git@github.com".toList ++ (':' :: (([] : List Char) ++ (o ++ '/' :: r))) := rfl
  rw [e, pySplit_lit (by decide), pySplit_exact]
  have hocc : ¬ (':' :: ([] : List Char)) <:+: (o ++ '/' :: r) := by
    intro hin
    rcases List.mem_append.mp (single_infix_mem.mp hin) with hm | hm
    · exact ho hm
    · rcases List.mem_cons.mp hm with hm | hm
      · exact absurd hm (by decide)
      · exact hr hm
  rw [pySplit_no_occur hocc]
  simp [mapHd]

/-- `"https://"` cannot occur in a well-formed SSH URL: it needs two
adjacent slashes while the URL has a single slash. -/
theorem https_not_in_ssh {o r : List Char} (ho : '/' ∉ o) (hr : '/' ∉ r) :
    ¬ ("https://".toList <:+: ("git@github.com:".toList ++ (o ++ '/' :: r))) := by
  intro h
  have hc := h.sublist.count_le '/'
  have h1 : List.count '/' o = 0 := List.count_eq_zero.mpr ho
  have h2 : List.count '/' r = 0 := List.count_eq_zero.mpr hr
  have h3 : List.count '/' "git@github.com:".toList = 0 := by decide
  have h4 : List.count '/' "https://".toList = 2 := by decide
  have h5 : (if ('/' == '/') = true then 1 else 0) = 1 := by decide
  simp only [List.count_append, List.count_cons, h1, h2, h3, h4, h5] at hc
  omega

/-! ### Coordinate extraction on well-formed URLs -/

theorem parseRemote_https {o r : List Char} (ho : '/' ∉ o) (hr : '/' ∉ r)
    (hgo : ¬ ('.' :: "git".toList) <:+: o) (hgr : ¬ ('.' :: "git".toList) <:+: r)
    (hsuf : ¬ ("github.com".toList <:+ o)) :
    parseRemote ("https://github.com/".toList ++ (o ++ '/' :: r)) = .ok o r := by
  have hgh : strContains "github.com".toList
      ("https://github.com/".toList ++ (o ++ '/' :: r)) = true :=
    strContains_iff.mpr ⟨"https://".toList, '/' :: (o ++ '/' :: r), rfl⟩
  have hrep : pyReplace '.' "git".toList
      ("https://github.com/".toList ++ (o ++ '/' :: r)) =
      "https://github.com/".toList ++ (o ++ '/' :: r) :=
    pyReplace_no_occur (not_dotgit_https hgo hgr)
  have hhttps : strContains "https://".toList
      ("https://github.com/".toList ++ (o ++ '/' :: r)) = true :=
    strContains_iff.mpr ⟨[], "github.com/".toList ++ (o ++ '/' :: r), rfl⟩
  simp only [parseRemote, hgh, hrep, hhttps, if_true,
    pySplit_github ho hr hsuf, pySplit_slash ho hr]
  simp only [List.getElem?_cons_succ, List.getElem?_cons_zero]
  rw [pySplit_slash ho hr]
  simp [List.getD]

theorem parseRemote_https_git {o r : List Char} (ho : '/' ∉ o) (hr : '/' ∉ r)
    (hgo : ¬ ('.' :: "git".toList) <:+: o) (hgr : ¬ ('.' :: "git".toList) <:+: r)
    (hsuf : ¬ ("github.com".toList <:+ o)) :
    parseRemote ("https://github.com/".toList ++
      (o ++ '/' :: (r ++ '.' :: "git".toList))) = .ok o r := by
  have e : "https://github.com/".toList ++ (o ++ '/' :: (r ++ '.' :: "git".toList)) =
      ("https://github.com/".toList ++ (o ++ '/' :: r)) ++ '.' :: "git".toList := by
    simp
  have hgh : strContains "github.com".toList
      ("https://github.com/".toList ++ (o ++ '/' :: (r ++ '.' :: "git".toList))) = true :=
    strContains_iff.mpr ⟨"https://".toList, '/' :: (o ++ '/' :: (r ++ '.' :: "git".toList)), rfl⟩
  have hrep : pyReplace '.' "git".toList
      ("https://github.com/".toList ++ (o ++ '/' :: (r ++ '.' :: "git".toList))) =
      "https://github.com/".toList ++ (o ++ '/' :: r) := by
    rw [e]
    exact pyReplace_dotgit_strip (not_dotgit_https hgo hgr)
  have hhttps : strContains "https://".toList
      ("https://github.com/".toList ++ (o ++ '/' :: r)) = true :=
    strContains_iff.mpr ⟨[], "github.com/".toList ++ (o ++ '/' :: r), rfl⟩
  simp only [parseRemote, hgh, hrep, hhttps, if_true,
    pySplit_github ho hr hsuf, pySplit_slash ho hr]
  simp only [List.getElem?_cons_succ, List.getElem?_cons_zero]
  rw [pySplit_slash ho hr]
  simp [List.getD]

theorem parseRemote_ssh {o r : List Char} (ho : '/' ∉ o) (hr : '/' ∉ r)
    (hoc : ':' ∉ o) (hrc : ':' ∉ r)
    (hgo : ¬ ('.' :: "git".toList) <:+: o) (hgr : ¬ ('.' :: "git".toList) <:+: r) :
    parseRemote ("git@github.com:".toList ++ (o ++ '/' :: r)) = .ok o r := by
  have hgh : strContains "github.com".toList
      ("git@github.com:".toList ++ (o ++ '/' :: r)) = true :=
    strContains_iff.mpr ⟨"git@".toList, ':' :: (o ++ '/' :: r), rfl⟩
  have hrep : pyReplace '.' "git".toList
      ("git@github.com:".toList ++ (o ++ '/' :: r)) =
      "git@github.com:".toList ++ (o ++ '/' :: r) :=
    pyReplace_no_occur (not_dotgit_ssh hgo hgr)
  have hhttps : strContains "https://".toList
      ("git@github.com:".toList ++ (o ++ '/' :: r)) = false := by
    cases hcc : strContains "https://".toList ("git@github.com:".toList ++ (o ++ '/' :: r)) with
    | false => rfl
    | true => exact absurd (strContains_iff.mp hcc) (https_not_in_ssh ho hr)
  simp only [parseRemote, hgh, hrep, hhttps, if_true, Bool.false_eq_true, if_false,
    pySplit_colon_ssh hoc hrc, pySplit_slash ho hr]
  simp only [List.getElem?_cons_succ, List.getElem?_cons_zero]
  rw [pySplit_slash ho hr]
  simp [List.getD]

theorem parseRemote_ssh_git {o r : List Char} (ho : '/' ∉ o) (hr : '/' ∉ r)
    (hoc : ':' ∉ o) (hrc : ':' ∉ r)
    (hgo : ¬ ('.' :: "git".toList) <:+: o) (hgr : ¬ ('.' :: "git".toList) <:+: r) :
    parseRemote ("git@github.com:".toList ++
      (o ++ '/' :: (r ++ '.' :: "git".toList))) = .ok o r := by
  have e : "git@github.com:".toList ++ (o ++ '/' :: (r ++ '.' :: "git".toList)) =
      ("git@github.com:".toList ++ (o ++ '/' :: r)) ++ '.' :: "git".toList := by
    simp
  have hgh : strContains "github.com".toList
      ("git@github.com:".toList ++ (o ++ '/' :: (r ++ '.' :: "git".toList))) = true :=
    strContains_iff.mpr ⟨"git@".toList, ':' :: (o ++ '/' :: (r ++ '.' :: "git".toList)), rfl⟩
  have hrep : pyReplace '.' "git".toList
      ("git@github.com:".toList ++ (o ++ '/' :: (r ++ '.' :: "git".toList))) =
      "git@github.com:".toList ++ (o ++ '/' :: r) := by
    rw [e]
    exact pyReplace_dotgit_strip (not_dotgit_ssh hgo hgr)
  have hhttps : strContains "https://".toList
      ("git@github.com:".toList ++ (o ++ '/' :: r)) = false := by
    cases hcc : strContains "https://".toList ("git@github.com:".toList ++ (o ++ '/' :: r)) with
    | false => rfl
    | true => exact absurd (strContains_iff.mp hcc) (https_not_in_ssh ho hr)
  simp only [parseRemote, hgh, hrep, hhttps, if_true, Bool.false_eq_true, if_false,
    pySplit_colon_ssh hoc hrc, pySplit_slash ho hr]
  simp only [List.getElem?_cons_succ, List.getElem?_cons_zero]
  rw [pySplit_slash ho hr]
  simp [List.getD]

/-! ### Claim C1 -/

/-- Claim C1, amended: for every remote URL of the form
`https://github.com/<owner>/<repo>` or `git@github.com:<owner>/<repo>`,
with or without a trailing `".git"` suffix, where the owner and repo
components contain no `'/'` and no `':'`, contain `".git"` nowhere inside
them, and the owner does not end in `"github.com"`, the parsing step of
`get_repo_info` returns exactly `(owner, repo)` with the optional suffix
removed.  (The original claim, quantifying over arbitrary hosts and
arbitrary component strings, is refuted by `claim_C1_counterexample`.) -/
theorem claim_C1 (o r : List Char) (ho : '/' ∉ o) (hr : '/' ∉ r)
    (hoc : ':' ∉ o) (hrc : ':' ∉ r)
    (hgo : ¬ ('.' :: "git".toList) <:+: o) (hgr : ¬ ('.' :: "git".toList) <:+: r)
    (hsuf : ¬ ("github.com".toList <:+ o)) :
    parseRemote ("https://github.com/".toList ++ (o ++ '/' :: r)) = .ok o r ∧
    parseRemote ("https://github.com/".toList ++
      (o ++ '/' :: (r ++ '.' :: "git".toList))) = .ok o r ∧
    parseRemote ("git@github.com:".toList ++ (o ++ '/' :: r)) = .ok o r ∧
    parseRemote ("git@github.com:".toList ++
      (o ++ '/' :: (r ++ '.' :: "git".toList))) = .ok o r :=
  ⟨parseRemote_https ho hr hgo hgr hsuf,
   parseRemote_https_git ho hr hgo hgr hsuf,
   parseRemote_ssh ho hr hoc hrc hgo hgr,
   parseRemote_ssh_git ho hr hoc hrc hgo hgr⟩

/-- Claim C1 witness: the amended parsing theorem instantiated at the
concrete coordinates `octo/hi` in all four URL shapes. -/
theorem claim_C1_witness :
    parseRemote "https://github.com/octo/hi".toList = .ok "octo".toList "hi".toList ∧
    parseRemote "https://github.com/octo/hi.git".toList = .ok "octo".toList "hi".toList ∧
    parseRemote "git@github.com:octo/hi".toList = .ok "octo".toList "hi".toList ∧
    parseRemote "git@github.com:octo/hi.git".toList = .ok "octo".toList "hi".toList := by
  obtain ⟨h1, h2, h3, h4⟩ := claim_C1 "octo".toList "hi".toList (by decide) (by decide)
    (by decide) (by decide) (by decide) (by decide) (by decide)
  have e1 : "https://github.com/octo/hi".toList =
      "https://github.com/".toList ++ ("octo".toList ++ '/' :: "hi".toList) := by decide
  have e2 : "https://github.com/octo/hi.git".toList =
      "https://github.com/".toList ++
        ("octo".toList ++ '/' :: ("hi".toList ++ '.' :: "git".toList)) := by decide
  have e3 : "git@github.com:octo/hi".toList =
      "git@github.com:".toList ++ ("octo".toList ++ '/' :: "hi".toList) := by decide
  have e4 : "git@github.com:octo/hi.git".toList =
      "git@github.com:".toList ++
        ("octo".toList ++ '/' :: ("hi".toList ++ '.' :: "git".toList)) := by decide
  exact ⟨e1 ▸ h1, e2 ▸ h2, e3 ▸ h3, e4 ▸ h4⟩

/-- Claim C1 counterexample: the original claim fails on the code.  The
source deletes every occurrence of `".git"` from the URL (not only a
trailing suffix), so the owner `a.gitb` is returned altered, as `ab`; and
a URL whose host is not `github.com` is not parsed at all. -/
theorem claim_C1_counterexample :
    parseRemote "https://github.com/a.gitb/repo".toList =
      .ok "ab".toList "repo".toList ∧
    ParseResult.ok "ab".toList "repo".toList ≠
      ParseResult.ok "a.gitb".toList "repo".toList ∧
    parseRemote "https://gitlab.com/owner/repo".toList = .nonePair := by
  refine ⟨by decide, by decide, by decide⟩

/-! ### Shape of the effectful flow -/

/-- When the coordinates resolve (either both environment variables are
set, or git auto-detection yields a truthy pair), `main` reduces to
`mainWithCoords` after a header-only prefix. -/
theorem main_resolved (env : Env)
    (hcoord : (env.ownerEnv ≠ [] ∧ env.repoEnv ≠ []) ∨
      ∃ o r, get_repo_info env.gitRemote = .ok o r ∧ o ≠ [] ∧ r ≠ []) :
    ∃ o r t, (t = [Event.out .headerSetup] ∨
        t = [Event.out .headerSetup, Event.out .autoDetectInfo]) ∧
      main env = mainWithCoords env t o r := by
  by_cases hor : env.ownerEnv = [] ∨ env.repoEnv = []
  · rcases hcoord with ⟨ho, hr⟩ | ⟨o, r, hg, ho, hr⟩
    · rcases hor with h | h
      · exact absurd h ho
      · exact absurd h hr
    · refine ⟨o, r, [Event.out .headerSetup, Event.out .autoDetectInfo], Or.inr rfl, ?_⟩
      have hne : ¬ (o = [] ∨ r = []) := by
        rintro (h | h)
        · exact ho h
        · exact hr h
      simp [main, if_pos hor, hg, if_neg hne]
  · refine ⟨env.ownerEnv, env.repoEnv, [Event.out .headerSetup], Or.inl rfl, ?_⟩
    simp [main, if_neg hor]

/-- With a present token and an affirmative confirmation, `mainWithCoords`
is the apply step followed, on success, by summary, verification and the
final header. -/
theorem mainWithCoords_affirm (env : Env) (t : List Event) (o r : List Char)
    {line : List Char}
    (htok : env.tokenEnv ≠ []) (hline : env.promptResponse = some line)
    (haff : pyLower line = "y".toList ∨ pyLower line = "yes".toList) :
    mainWithCoords env t o r =
      if (apply_branch_protection o r BRANCH env.tokenEnv env.putResponse).2 then
        ⟨t ++ [.out (.repoLine o r), .out (.branchLine BRANCH), .out .configDisplay] ++
          (apply_branch_protection o r BRANCH env.tokenEnv env.putResponse).1 ++
          [.out (.summaryLines o r)] ++
          verify_protection o r BRANCH env.tokenEnv env.getResponse ++
          [.out .headerComplete], .exited 0⟩
      else
        ⟨t ++ [.out (.repoLine o r), .out (.branchLine BRANCH), .out .configDisplay] ++
          (apply_branch_protection o r BRANCH env.tokenEnv env.putResponse).1 ++
          [.out .headerFailed], .exited 1⟩ := by
  simp only [mainWithCoords, if_neg htok, hline, if_pos haff]

/-- With a present token and a non-affirmative confirmation,
`mainWithCoords` cancels with exit code 0 and no further events. -/
theorem mainWithCoords_decline {env : Env} {t : List Event} {o r line : List Char}
    (htok : env.tokenEnv ≠ []) (hline : env.promptResponse = some line)
    (hno : pyLower line ≠ "y".toList) (hno2 : pyLower line ≠ "yes".toList) :
    mainWithCoords env t o r =
      ⟨t ++ [.out (.repoLine o r), .out (.branchLine BRANCH), .out .configDisplay,
        .out .cancelledWarning], .exited 0⟩ := by
  have hnaff : ¬ (pyLower line = "y".toList ∨ pyLower line = "yes".toList) := by
    rintro (h | h)
    · exact hno h
    · exact hno2 h
  simp only [mainWithCoords, if_neg htok, hline, if_neg hnaff]
  simp

/-- With an empty token, `mainWithCoords` aborts with exit code 1 before
any request. -/
theorem mainWithCoords_no_token {env : Env} {t : List Event} {o r : List Char}
    (htok : env.tokenEnv = []) :
    mainWithCoords env t o r = ⟨t ++ [.out .tokenMissingError], .exited 1⟩ := by
  simp only [mainWithCoords, if_pos htok]

/-! ### Claims C3 and C4 -/

/-- Claim C3: in every environment where the access token is unset or
empty while the coordinates resolve, the tool performs zero network calls
and exits with the non-zero code 1. -/
theorem claim_C3 (env : Env)
    (hcoord : (env.ownerEnv ≠ [] ∧ env.repoEnv ≠ []) ∨
      ∃ o r, get_repo_info env.gitRemote = .ok o r ∧ o ≠ [] ∧ r ≠ [])
    (htok : env.tokenEnv = []) :
    netEvents (main env).trace = [] ∧ (main env).outcome = .exited 1 := by
  obtain ⟨o, r, t, ht, hmain⟩ := main_resolved env hcoord
  rw [hmain, mainWithCoords_no_token htok]
  rcases ht with rfl | rfl
  · exact ⟨by simp [netEvents, isNetEvent], rfl⟩
  · exact ⟨by simp [netEvents, isNetEvent], rfl⟩

/-- Claim C3 witness: concrete environment with explicit coordinates and
an empty token. -/
theorem claim_C3_witness :
    netEvents (main ⟨"o".toList, "r".toList, [], .error (), none,
      .exn [], .exn []⟩).trace = [] ∧
    (main ⟨"o".toList, "r".toList, [], .error (), none,
      .exn [], .exn []⟩).outcome = .exited 1 :=
  claim_C3 _ (Or.inl ⟨by decide, by decide⟩) rfl

/-- Claim C4: for every confirmation-prompt input other than an
affirmative token (lowercase `y` or `yes`), with resolved coordinates and
a present token, the tool performs zero network calls and exits with
code 0. -/
theorem claim_C4 (env : Env)
    (hcoord : (env.ownerEnv ≠ [] ∧ env.repoEnv ≠ []) ∨
      ∃ o r, get_repo_info env.gitRemote = .ok o r ∧ o ≠ [] ∧ r ≠ [])
    (htok : env.tokenEnv ≠ []) (line : List Char)
    (hline : env.promptResponse = some line)
    (hno : pyLower line ≠ "y".toList) (hno2 : pyLower line ≠ "yes".toList) :
    netEvents (main env).trace = [] ∧ (main env).outcome = .exited 0 := by
  obtain ⟨o, r, t, ht, hmain⟩ := main_resolved env hcoord
  rw [hmain, mainWithCoords_decline htok hline hno hno2]
  rcases ht with rfl | rfl
  · exact ⟨by simp [netEvents, isNetEvent], rfl⟩
  · exact ⟨by simp [netEvents, isNetEvent], rfl⟩

/-- Claim C2: with resolved coordinates, a present token and an
affirmative confirmation, the status of the apply response determines the
outcome: 200 reports success and proceeds to verification (a GET is
attempted) with exit code 0; 401, 403 and 404 print their specific
diagnostics and exit 1 without attempting verification; any other status
prints the generic failure carrying the status code and response body; a
transport-level exception prints its own distinct diagnostic (and no
generic-status diagnostic) and also exits 1 without verification. -/
theorem claim_C2 (env : Env)
    (hcoord : (env.ownerEnv ≠ [] ∧ env.repoEnv ≠ []) ∨
      ∃ o r, get_repo_info env.gitRemote = .ok o r ∧ o ≠ [] ∧ r ≠ [])
    (htok : env.tokenEnv ≠ []) (line : List Char)
    (hline : env.promptResponse = some line)
    (haff : pyLower line = "y".toList ∨ pyLower line = "yes".toList) :
    (∀ txt jd, env.putResponse = .ok 200 txt jd →
      (main env).outcome = .exited 0 ∧
      Event.out .applySuccess ∈ (main env).trace ∧
      ∃ u a, Event.getReq u a ∈ (main env).trace) ∧
    (∀ txt jd, env.putResponse = .ok 401 txt jd →
      (main env).outcome = .exited 1 ∧
      Event.out .authFailedError ∈ (main env).trace ∧
      ∀ u a, Event.getReq u a ∉ (main env).trace) ∧
    (∀ txt jd, env.putResponse = .ok 403 txt jd →
      (main env).outcome = .exited 1 ∧
      Event.out .permissionError ∈ (main env).trace ∧
      ∀ u a, Event.getReq u a ∉ (main env).trace) ∧
    (∀ txt jd, env.putResponse = .ok 404 txt jd →
      (main env).outcome = .exited 1 ∧
      (∃ o r, Event.out (.notFoundError o r BRANCH) ∈ (main env).trace) ∧
      ∀ u a, Event.getReq u a ∉ (main env).trace) ∧
    (∀ s txt jd, env.putResponse = .ok s txt jd →
      s ≠ 200 → s ≠ 401 → s ≠ 403 → s ≠ 404 →
      (main env).outcome = .exited 1 ∧
      Event.out (.genericError s txt) ∈ (main env).trace ∧
      ∀ u a, Event.getReq u a ∉ (main env).trace) ∧
    (∀ e, env.putResponse = .exn e →
      (main env).outcome = .exited 1 ∧
      Event.out (.requestFailedError e) ∈ (main env).trace ∧
      (∀ s txt, Event.out (.genericError s txt) ∉ (main env).trace) ∧
      ∀ u a, Event.getReq u a ∉ (main env).trace) := by
  obtain ⟨o, r, t, ht, hmain⟩ := main_resolved env hcoord
  have hA := mainWithCoords_affirm env t o r htok hline haff
  refine ⟨?_, ?_, ?_, ?_, ?_, ?_⟩
  · intro txt jd hput
    rw [hmain, hA, hput]
    refine ⟨by simp [apply_branch_protection],
      by simp [apply_branch_protection, List.mem_append],
      protection_url o r BRANCH, bearerAuth env.tokenEnv,
      by simp [apply_branch_protection, verify_protection, List.mem_append]⟩
  · intro txt jd hput
    rw [hmain, hA, hput]
    refine ⟨by simp [apply_branch_protection],
      by simp [apply_branch_protection, List.mem_append], ?_⟩
    intro u a hmem
    rcases ht with rfl | rfl <;>
      simp [apply_branch_protection, List.mem_append] at hmem
  · intro txt jd hput
    rw [hmain, hA, hput]
    refine ⟨by simp [apply_branch_protection],
      by simp [apply_branch_protection, List.mem_append], ?_⟩
    intro u a hmem
    rcases ht with rfl | rfl <;>
      simp [apply_branch_protection, List.mem_append] at hmem
  · intro txt jd hput
    rw [hmain, hA, hput]
    refine ⟨by simp [apply_branch_protection],
      ⟨o, r, by simp [apply_branch_protection, List.mem_append]⟩, ?_⟩
    intro u a hmem
    rcases ht with rfl | rfl <;>
      simp [apply_branch_protection, List.mem_append] at hmem
  · intro s txt jd hput h200 h401 h403 h404
    rw [hmain, hA, hput]
    refine ⟨by simp [apply_branch_protection, h200, h401, h403, h404],
      by simp [apply_branch_protection, h200, h401, h403, h404, List.mem_append], ?_⟩
    intro u a hmem
    rcases ht with rfl | rfl <;>
      simp [apply_branch_protection, h200, h401, h403, h404, List.mem_append] at hmem
  · intro e hput
    rw [hmain, hA, hput]
    refine ⟨by simp [apply_branch_protection],
      by simp [apply_branch_protection, List.mem_append], ?_, ?_⟩
    · intro s txt hmem
      rcases ht with rfl | rfl <;>
        simp [apply_branch_protection, List.mem_append] at hmem
    · intro u a hmem
      rcases ht with rfl | rfl <;>
        simp [apply_branch_protection, List.mem_append] at hmem

/-- Claim C2 witness: concrete run of the 200 case, exercising the status
dispatch at a concrete environment. -/
theorem claim_C2_witness :
    (main ⟨"o".toList, "r".toList, "tok".toList, .error (), some "y".toList,
      .ok 200 [] none, .exn []⟩).outcome = .exited 0 ∧
    Event.out .applySuccess ∈ (main ⟨"o".toList, "r".toList, "tok".toList,
      .error (), some "y".toList, .ok 200 [] none, .exn []⟩).trace ∧
    ∃ u a, Event.getReq u a ∈ (main ⟨"o".toList, "r".toList, "tok".toList,
      .error (), some "y".toList, .ok 200 [] none, .exn []⟩).trace :=
  (claim_C2 _ (Or.inl ⟨by decide, by decide⟩) (by decide) "y".toList rfl
    (Or.inl (by decide))).1 [] none rfl

/-- Claim C5: any verification failure (non-200 GET status, unparseable
body, or transport exception) after a successful apply is reported by a
single warning message, and the run still exits with code 0. -/
theorem claim_C5 (env : Env)
    (hcoord : (env.ownerEnv ≠ [] ∧ env.repoEnv ≠ []) ∨
      ∃ o r, get_repo_info env.gitRemote = .ok o r ∧ o ≠ [] ∧ r ≠ [])
    (htok : env.tokenEnv ≠ []) (line : List Char)
    (hline : env.promptResponse = some line)
    (haff : pyLower line = "y".toList ∨ pyLower line = "yes".toList)
    (txt : List Char) (jd : Option VerifyDigest)
    (hput : env.putResponse = .ok 200 txt jd)
    (hfail : verifyFailed env.getResponse) :
    (main env).outcome = .exited 0 ∧
    ∃ w, (w = Msg.verifyWarning ∨ w = Msg.verifyRequestFailedWarning) ∧
      ∀ o r b tk, verify_protection o r b tk env.getResponse =
        [.out .verifying, .getReq (protection_url o r b) (bearerAuth tk),
         .out w] := by
  obtain ⟨o, r, t, ht, hmain⟩ := main_resolved env hcoord
  constructor
  · rw [hmain, mainWithCoords_affirm env t o r htok hline haff, hput]
    simp [apply_branch_protection]
  · cases hg : env.getResponse with
    | ok s txt2 jd2 =>
      rw [hg] at hfail
      simp only [verifyFailed] at hfail
      by_cases h200 : s = 200
      · subst h200
        rcases hfail with h | h
        · exact absurd rfl h
        · subst h
          exact ⟨.verifyRequestFailedWarning, Or.inr rfl,
            fun o2 r2 b tk => by simp [verify_protection]⟩
      · exact ⟨.verifyWarning, Or.inl rfl,
          fun o2 r2 b tk => by simp [verify_protection, h200]⟩
    | exn e =>
      exact ⟨.verifyRequestFailedWarning, Or.inr rfl,
        fun o2 r2 b tk => by simp [verify_protection]⟩

/-- Claim C5 witness: apply succeeds with 200; the verification GET
returns 500, and the run exits 0. -/
theorem claim_C5_witness :
    (main ⟨"o".toList, "r".toList, "tok".toList, .error (), some "y".toList,
      .ok 200 [] none, .ok 500 [] none⟩).outcome = .exited 0 ∧
    ∃ w, (w = Msg.verifyWarning ∨ w = Msg.verifyRequestFailedWarning) ∧
      ∀ o r b tk, verify_protection o r b tk (.ok 500 [] none) =
        [.out .verifying, .getReq (protection_url o r b) (bearerAuth tk),
         .out w] :=
  claim_C5 _ (Or.inl ⟨by decide, by decide⟩) (by decide) "y".toList rfl
    (Or.inl (by decide)) [] none rfl (Or.inl (by decide))

/-- Claim C7, amended: when the version-control CLI invocation errors, or
the remote URL does not contain the host marker `"github.com"`,
coordinate resolution returns the empty pair, and the caller then aborts
with the usage message and exit code 1 without issuing any network call.
(The original claim, covering every URL not matching a recognized
pattern, is refuted by `claim_C7_counterexample`: a URL containing the
host marker but matching neither pattern raises an uncaught
`IndexError`.) -/
theorem claim_C7 :
    get_repo_info (.error ()) = .nonePair ∧
    (∀ url, strContains "github.com".toList url = false →
      parseRemote url = .nonePair) ∧
    (∀ env, (env.ownerEnv = [] ∨ env.repoEnv = []) →
      get_repo_info env.gitRemote = .nonePair →
      (main env).outcome = .exited 1 ∧ netEvents (main env).trace = [] ∧
      Event.out .usageError ∈ (main env).trace) := by
  refine ⟨rfl, ?_, ?_⟩
  · intro url h
    have hne : strContains "github.com".toList url ≠ true := by
      rw [h]
      exact Bool.false_ne_true
    rw [parseRemote, if_neg hne]
  · intro env hor hg
    have hm : main env = ⟨[Event.out .headerSetup, Event.out .autoDetectInfo,
        Event.out .usageError], .exited 1⟩ := by
      simp [main, if_pos hor, hg]
    rw [hm]
    exact ⟨rfl, by decide, by decide⟩

/-- Claim C7 witness: a remote URL on a foreign host is rejected, and the
caller aborts with the usage message, exit code 1, and no network
calls. -/
theorem claim_C7_witness :
    parseRemote "https://example.com/o/r".toList = .nonePair ∧
    (main ⟨[], "r".toList, "tok".toList, .ok "https://example.com/o/r".toList,
      none, .exn [], .exn []⟩).outcome = .exited 1 ∧
    netEvents (main ⟨[], "r".toList, "tok".toList,
      .ok "https://example.com/o/r".toList, none, .exn [], .exn []⟩).trace = [] ∧
    Event.out .usageError ∈ (main ⟨[], "r".toList, "tok".toList,
      .ok "https://example.com/o/r".toList, none, .exn [], .exn []⟩).trace :=
  ⟨claim_C7.2.1 _ (by decide),
   claim_C7.2.2 _ (Or.inl rfl) (by decide)⟩

/-- Claim C7 counterexample: the URL `github.com/owner/repo` contains the
host marker but matches neither recognized pattern; `split(":")` yields a
single chunk and indexing `[1]` raises an uncaught `IndexError`, so the
parsing step does not return the empty pair. -/
theorem claim_C7_counterexample :
    parseRemote "github.com/owner/repo".toList = .indexError ∧
    ParseResult.indexError ≠ ParseResult.nonePair := by
  exact ⟨by decide, by decide⟩

/-- Claim C9: whenever `main` terminates by a `KeyboardInterrupt`, the
entry-point guard prints the short cancellation notice and the process
exits with code 0; no exception propagates. -/
theorem claim_C9 (env : Env)
    (h : (main env).outcome = .raised .keyboardInterrupt) :
    (entryPoint env).outcome = .exited 0 ∧
    (entryPoint env).trace =
      (main env).trace ++ [.out .blank, .out .cancelledByUser] := by
  simp [entryPoint, h]

/-- Claim C9 witness: an interrupt arriving while the script blocks on the
confirmation prompt produces a clean zero exit. -/
theorem claim_C9_witness :
    (entryPoint ⟨"o".toList, "r".toList, "tok".toList, .error (), none,
      .exn [], .exn []⟩).outcome = .exited 0 ∧
    (entryPoint ⟨"o".toList, "r".toList, "tok".toList, .error (), none,
      .exn [], .exn []⟩).trace =
      (main ⟨"o".toList, "r".toList, "tok".toList, .error (), none,
        .exn [], .exn []⟩).trace ++ [.out .blank, .out .cancelledByUser] :=
  claim_C9 _ (by decide)

/-! ### Network-call classification -/

theorem netEvents_append {a b : List Event} :
    netEvents (a ++ b) = netEvents a ++ netEvents b := by
  simp [netEvents, List.filter_append]

theorem netEvents_out_cons {m : Msg} {rest : List Event} :
    netEvents (Event.out m :: rest) = netEvents rest := by
  simp [netEvents, isNetEvent]

theorem netEvents_nil : netEvents [] = [] := rfl

/-- The apply step issues exactly one network call: the PUT carrying the
static policy body. -/
theorem netEvents_apply {o r b tk : List Char} {res : NetRes} :
    netEvents (apply_branch_protection o r b tk res).1 =
      [.putReq (protection_url o r b) (bearerAuth tk)
        (jsonDumps PROTECTION_CONFIG)] := by
  cases res with
  | ok s txt jd =>
    simp only [apply_branch_protection]
    split_ifs <;> simp [netEvents, isNetEvent]
  | exn e => simp [apply_branch_protection, netEvents, isNetEvent]

/-- The verification step issues exactly one network call: the GET to the
same endpoint. -/
theorem netEvents_verify {o r b tk : List Char} {res : NetRes} :
    netEvents (verify_protection o r b tk res) =
      [.getReq (protection_url o r b) (bearerAuth tk)] := by
  cases res with
  | ok s txt jd =>
    cases jd <;> simp only [verify_protection] <;> split_ifs <;>
      simp [netEvents, isNetEvent]
  | exn e => simp [verify_protection, netEvents, isNetEvent]

/-- With a present token and an interrupt at the prompt, `mainWithCoords`
raises `KeyboardInterrupt`. -/
theorem mainWithCoords_interrupt {env : Env} {t : List Event} {o r : List Char}
    (htok : env.tokenEnv ≠ []) (hpr : env.promptResponse = none) :
    mainWithCoords env t o r =
      ⟨t ++ [.out (.repoLine o r), .out (.branchLine BRANCH),
        .out .configDisplay], .raised .keyboardInterrupt⟩ := by
  simp only [mainWithCoords, if_neg htok, hpr]

/-- Every run of `mainWithCoords` issues no network call, exactly the PUT,
or exactly the PUT followed by the GET, in this order. -/
theorem netEvents_mainWithCoords (env : Env) (t : List Event) (o r : List Char)
    (ht : netEvents t = []) :
    netEvents (mainWithCoords env t o r).trace = [] ∨
    netEvents (mainWithCoords env t o r).trace =
      [.putReq (protection_url o r BRANCH) (bearerAuth env.tokenEnv)
        (jsonDumps PROTECTION_CONFIG)] ∨
    netEvents (mainWithCoords env t o r).trace =
      [.putReq (protection_url o r BRANCH) (bearerAuth env.tokenEnv)
        (jsonDumps PROTECTION_CONFIG),
       .getReq (protection_url o r BRANCH) (bearerAuth env.tokenEnv)] := by
  by_cases htok : env.tokenEnv = []
  · left
    rw [mainWithCoords_no_token htok]
    simp [netEvents_append, netEvents_out_cons, netEvents_nil, ht]
  · cases hpr : env.promptResponse with
    | none =>
      left
      rw [mainWithCoords_interrupt htok hpr]
      simp [netEvents_append, netEvents_out_cons, netEvents_nil, ht]
    | some line =>
      by_cases haff : pyLower line = "y".toList ∨ pyLower line = "yes".toList
      · rw [mainWithCoords_affirm env t o r htok hpr haff]
        by_cases hsucc :
            (apply_branch_protection o r BRANCH env.tokenEnv env.putResponse).2 = true
        · right; right
          rw [if_pos hsucc]
          simp [netEvents_append, netEvents_out_cons, netEvents_nil, ht,
            netEvents_apply, netEvents_verify]
        · right; left
          rw [if_neg hsucc]
          simp [netEvents_append, netEvents_out_cons, netEvents_nil, ht,
            netEvents_apply]
      · left
        rw [mainWithCoords_decline htok hpr
          (fun h => haff (Or.inl h)) (fun h => haff (Or.inr h))]
        simp [netEvents_append, netEvents_out_cons, netEvents_nil, ht]

/-- Every run of `main` issues no network call, exactly the PUT, or
exactly the PUT followed by the GET, always against the protection
endpoint of the constant branch, with the bearer token in both. -/
theorem netEvents_main (env : Env) :
    netEvents (main env).trace = [] ∨
    ∃ o r, netEvents (main env).trace =
        [.putReq (protection_url o r BRANCH) (bearerAuth env.tokenEnv)
          (jsonDumps PROTECTION_CONFIG)] ∨
      netEvents (main env).trace =
        [.putReq (protection_url o r BRANCH) (bearerAuth env.tokenEnv)
          (jsonDumps PROTECTION_CONFIG),
         .getReq (protection_url o r BRANCH) (bearerAuth env.tokenEnv)] := by
  by_cases hor : env.ownerEnv = [] ∨ env.repoEnv = []
  · cases hg : get_repo_info env.gitRemote with
    | indexError =>
      left
      have hm : main env = ⟨[Event.out .headerSetup, Event.out .autoDetectInfo],
          .raised .indexError⟩ := by
        simp [main, if_pos hor, hg]
      rw [hm]
      decide
    | nonePair =>
      left
      have hm : main env = ⟨[Event.out .headerSetup, Event.out .autoDetectInfo,
          Event.out .usageError], .exited 1⟩ := by
        simp [main, if_pos hor, hg]
      rw [hm]
      decide
    | ok o2 r2 =>
      by_cases hz : o2 = [] ∨ r2 = []
      · left
        have hm : main env = ⟨[Event.out .headerSetup, Event.out .autoDetectInfo,
            Event.out .usageError], .exited 1⟩ := by
          simp [main, if_pos hor, hg, if_pos hz]
        rw [hm]
        decide
      · have hm : main env = mainWithCoords env
            [Event.out .headerSetup, Event.out .autoDetectInfo] o2 r2 := by
          simp [main, if_pos hor, hg, if_neg hz]
        rw [hm]
        rcases netEvents_mainWithCoords env
            [Event.out .headerSetup, Event.out .autoDetectInfo] o2 r2
            (by decide) with h | h | h
        · exact Or.inl h
        · exact Or.inr ⟨o2, r2, Or.inl h⟩
        · exact Or.inr ⟨o2, r2, Or.inr h⟩
  · have hm : main env = mainWithCoords env [Event.out .headerSetup]
        env.ownerEnv env.repoEnv := by
      simp [main, if_neg hor]
    rw [hm]
    rcases netEvents_mainWithCoords env [Event.out .headerSetup]
      env.ownerEnv env.repoEnv (by decide) with h | h | h
    · exact Or.inl h
    · exact Or.inr ⟨env.ownerEnv, env.repoEnv, Or.inl h⟩
    · exact Or.inr ⟨env.ownerEnv, env.repoEnv, Or.inr h⟩

/-- Network-call projections factor through `netEvents`. -/
theorem netUrls_netEvents {t : List Event} : netUrls (netEvents t) = netUrls t := by
  induction t with
  | nil => rfl
  | cons e rest ih =>
    cases e <;> simp [netEvents, netUrls, isNetEvent, List.filter_cons] at ih ⊢ <;>
      exact ih

theorem putBodies_netEvents {t : List Event} :
    putBodies (netEvents t) = putBodies t := by
  induction t with
  | nil => rfl
  | cons e rest ih =>
    cases e <;> simp [netEvents, putBodies, isNetEvent, List.filter_cons] at ih ⊢ <;>
      exact ih

theorem netAuths_netEvents {t : List Event} :
    netAuths (netEvents t) = netAuths t := by
  induction t with
  | nil => rfl
  | cons e rest ih =>
    cases e <;> simp [netEvents, netAuths, isNetEvent, List.filter_cons] at ih ⊢ <;>
      exact ih

/-- The endpoint always ends in `/branches/master/protection`. -/
theorem protection_url_suffix (o r : List Char) :
    ∃ p, protection_url o r BRANCH = p ++ "/branches/master/protection".toList := by
  refine ⟨"https://api.github.com/repos/".toList ++ o ++ "/".toList ++ r, ?_⟩
  have e : "/branches/".toList ++ ("master".toList ++ "/protection".toList) =
      "/branches/master/protection".toList := by decide
  simp only [protection_url, BRANCH, List.append_assoc]
  rw [e]

/-! ### Claims C6 and C10 -/

/-- Claim C6: the JSON body of the outbound PUT is the same serialization
of the static policy record in every run and for every pair of
coordinates: the coordinates influence the request URL only, never the
body. -/
theorem claim_C6 :
    (∀ env b, b ∈ putBodies (main env).trace →
      b = jsonDumps PROTECTION_CONFIG) ∧
    (∀ o r b tk res, putBodies (apply_branch_protection o r b tk res).1 =
      [jsonDumps PROTECTION_CONFIG]) ∧
    (∀ o r o2 r2 b tk res b2 tk2 res2,
      putBodies (apply_branch_protection o r b tk res).1 =
        putBodies (apply_branch_protection o2 r2 b2 tk2 res2).1) := by
  have happly : ∀ o r b tk res,
      putBodies (apply_branch_protection o r b tk res).1 =
        [jsonDumps PROTECTION_CONFIG] := by
    intro o r b tk res
    cases res with
    | ok s txt jd =>
      simp only [apply_branch_protection]
      split_ifs <;> simp [putBodies]
    | exn e => simp [apply_branch_protection, putBodies]
  refine ⟨?_, happly, fun o r o2 r2 b tk res b2 tk2 res2 => by
    rw [happly, happly]⟩
  intro env b hb
  rw [← putBodies_netEvents] at hb
  rcases netEvents_main env with h | ⟨o, r, h | h⟩ <;> rw [h] at hb <;>
    simp [putBodies] at hb <;> exact hb

/-- Claim C6 witness: a run that issues the PUT carries exactly the static
policy serialization as its body. -/
theorem claim_C6_witness :
    jsonDumps PROTECTION_CONFIG ∈ putBodies (main ⟨"o".toList, "r".toList,
      "tok".toList, .error (), some "y".toList, .ok 200 [] none,
      .exn []⟩).trace ∧
    ∀ b, b ∈ putBodies (main ⟨"o".toList, "r".toList, "tok".toList,
      .error (), some "y".toList, .ok 200 [] none, .exn []⟩).trace →
      b = jsonDumps PROTECTION_CONFIG := by
  constructor
  · have h : putBodies (main ⟨"o".toList, "r".toList, "tok".toList,
        .error (), some "y".toList, .ok 200 [] none, .exn []⟩).trace =
        [jsonDumps PROTECTION_CONFIG] := by rfl
    rw [h]
    exact List.mem_cons_self _ _
  · exact fun b => claim_C6.1 _ b

/-- Claim C10: the branch is the constant `"master"`: it is not part of
the environment record at all, and in every run every network call's URL
ends with `/branches/master/protection`. -/
theorem claim_C10 :
    BRANCH = "master".toList ∧
    ∀ env u, u ∈ netUrls (main env).trace →
      ∃ p, u = p ++ "/branches/master/protection".toList := by
  refine ⟨rfl, ?_⟩
  intro env u hu
  rw [← netUrls_netEvents] at hu
  rcases netEvents_main env with h | ⟨o, r, h | h⟩ <;> rw [h] at hu <;>
    simp [netUrls] at hu
  · rw [hu]
    exact protection_url_suffix o r
  · rw [hu]
    exact protection_url_suffix o r

/-- Claim C10 witness: the URLs of a run that performs both calls. -/
theorem claim_C10_witness :
    protection_url "o".toList "r".toList BRANCH ∈
      netUrls (main ⟨"o".toList, "r".toList, "tok".toList, .error (),
        some "y".toList, .ok 200 [] none, .exn []⟩).trace ∧
    ∃ p, protection_url "o".toList "r".toList BRANCH =
      p ++ "/branches/master/protection".toList := by
  constructor
  · decide
  · exact claim_C10.2 ⟨"o".toList, "r".toList, "tok".toList, .error (),
      some "y".toList, .ok 200 [] none, .exn []⟩ _ (by decide)

/-! ### Token handling -/

theorem outMsgs_append {a b : List Event} :
    outMsgs (a ++ b) = outMsgs a ++ outMsgs b := by
  simp [outMsgs, List.filterMap_append]

/-- The printed part of the apply step does not depend on the token. -/
theorem apply_token_fst {o r b t u : List Char} {res : NetRes} :
    outMsgs (apply_branch_protection o r b t res).1 =
      outMsgs (apply_branch_protection o r b u res).1 := by
  cases res with
  | ok s txt jd =>
    simp only [apply_branch_protection]
    split_ifs <;> simp [outMsgs]
  | exn e => simp [apply_branch_protection, outMsgs]

/-- The boolean result of the apply step does not depend on the token. -/
theorem apply_token_snd {o r b t u : List Char} {res : NetRes} :
    (apply_branch_protection o r b t res).2 =
      (apply_branch_protection o r b u res).2 := by
  cases res with
  | ok s txt jd =>
    simp only [apply_branch_protection]
    split_ifs <;> rfl
  | exn e => rfl

/-- The printed part of the verification step does not depend on the
token. -/
theorem verify_token {o r b t u : List Char} {res : NetRes} :
    outMsgs (verify_protection o r b t res) =
      outMsgs (verify_protection o r b u res) := by
  cases res with
  | ok s txt jd =>
    cases jd <;> simp only [verify_protection] <;> split_ifs <;> simp [outMsgs]
  | exn e => simp [verify_protection, outMsgs]

/-- Two environments that agree on everything but the (nonempty) token
print the same messages and exit the same way from `mainWithCoords`. -/
theorem mainWithCoords_token_indep (e1 e2 : Env) (t0 : List Event)
    (o r : List Char)
    (hpr : e1.promptResponse = e2.promptResponse)
    (hput : e1.putResponse = e2.putResponse)
    (hget : e1.getResponse = e2.getResponse)
    (h1 : e1.tokenEnv ≠ []) (h2 : e2.tokenEnv ≠ []) :
    outMsgs (mainWithCoords e1 t0 o r).trace =
      outMsgs (mainWithCoords e2 t0 o r).trace ∧
    (mainWithCoords e1 t0 o r).outcome =
      (mainWithCoords e2 t0 o r).outcome := by
  cases hpr2 : e2.promptResponse with
  | none =>
    rw [mainWithCoords_interrupt h1 (hpr.trans hpr2),
      mainWithCoords_interrupt h2 hpr2]
    exact ⟨rfl, rfl⟩
  | some line =>
    by_cases haff : pyLower line = "y".toList ∨ pyLower line = "yes".toList
    · rw [mainWithCoords_affirm e1 t0 o r h1 (hpr.trans hpr2) haff,
        mainWithCoords_affirm e2 t0 o r h2 hpr2 haff, hput, hget]
      have hsnd : (apply_branch_protection o r BRANCH e1.tokenEnv e2.putResponse).2 =
          (apply_branch_protection o r BRANCH e2.tokenEnv e2.putResponse).2 :=
        apply_token_snd
      rw [hsnd]
      by_cases hsucc :
          (apply_branch_protection o r BRANCH e2.tokenEnv e2.putResponse).2 = true
      · rw [if_pos hsucc, if_pos hsucc]
        refine ⟨?_, rfl⟩
        simp only [outMsgs_append]
        rw [apply_token_fst (t := e1.tokenEnv) (u := e2.tokenEnv),
          verify_token (t := e1.tokenEnv) (u := e2.tokenEnv)]
      · rw [if_neg hsucc, if_neg hsucc]
        refine ⟨?_, rfl⟩
        simp only [outMsgs_append]
        rw [apply_token_fst (t := e1.tokenEnv) (u := e2.tokenEnv)]
    · rw [mainWithCoords_decline h1 (hpr.trans hpr2)
          (fun h => haff (Or.inl h)) (fun h => haff (Or.inr h)),
        mainWithCoords_decline h2 hpr2
          (fun h => haff (Or.inl h)) (fun h => haff (Or.inr h))]
      exact ⟨rfl, rfl⟩

/-! ### Claim C8 -/

/-- Claim C8: every network call of every run carries the environment
token as a bearer credential in its Authorization header, and the printed
output (and the outcome) of a run does not depend on the token value, for
any two nonempty tokens: the token is never printed. -/
theorem claim_C8 (env : Env) :
    (∀ a, a ∈ netAuths (main env).trace → a = bearerAuth env.tokenEnv) ∧
    (∀ tk tk2, tk ≠ [] → tk2 ≠ [] →
      outMsgs (main {env with tokenEnv := tk}).trace =
        outMsgs (main {env with tokenEnv := tk2}).trace ∧
      (main {env with tokenEnv := tk}).outcome =
        (main {env with tokenEnv := tk2}).outcome) := by
  constructor
  · intro a ha
    rw [← netAuths_netEvents] at ha
    rcases netEvents_main env with h | ⟨o, r, h | h⟩ <;> rw [h] at ha <;>
      simp [netAuths] at ha
    · exact ha
    · exact ha
  · intro tk tk2 h1 h2
    obtain ⟨oe, re, te, git, pr, put, get⟩ := env
    have e1 : ({(⟨oe, re, te, git, pr, put, get⟩ : Env) with tokenEnv := tk} : Env) =
        ⟨oe, re, tk, git, pr, put, get⟩ := rfl
    have e2 : ({(⟨oe, re, te, git, pr, put, get⟩ : Env) with tokenEnv := tk2} : Env) =
        ⟨oe, re, tk2, git, pr, put, get⟩ := rfl
    rw [e1, e2]
    by_cases hor : oe = [] ∨ re = []
    · cases hg : get_repo_info git with
      | indexError =>
        have hm1 : main ⟨oe, re, tk, git, pr, put, get⟩ =
            ⟨[Event.out .headerSetup, Event.out .autoDetectInfo],
              .raised .indexError⟩ := by
          simp [main, if_pos hor, hg]
        have hm2 : main ⟨oe, re, tk2, git, pr, put, get⟩ =
            ⟨[Event.out .headerSetup, Event.out .autoDetectInfo],
              .raised .indexError⟩ := by
          simp [main, if_pos hor, hg]
        rw [hm1, hm2]
        exact ⟨rfl, rfl⟩
      | nonePair =>
        have hm1 : main ⟨oe, re, tk, git, pr, put, get⟩ =
            ⟨[Event.out .headerSetup, Event.out .autoDetectInfo,
              Event.out .usageError], .exited 1⟩ := by
          simp [main, if_pos hor, hg]
        have hm2 : main ⟨oe, re, tk2, git, pr, put, get⟩ =
            ⟨[Event.out .headerSetup, Event.out .autoDetectInfo,
              Event.out .usageError], .exited 1⟩ := by
          simp [main, if_pos hor, hg]
        rw [hm1, hm2]
        exact ⟨rfl, rfl⟩
      | ok o2 r2 =>
        by_cases hz : o2 = [] ∨ r2 = []
        · have hm1 : main ⟨oe, re, tk, git, pr, put, get⟩ =
              ⟨[Event.out .headerSetup, Event.out .autoDetectInfo,
                Event.out .usageError], .exited 1⟩ := by
            simp [main, if_pos hor, hg, if_pos hz]
          have hm2 : main ⟨oe, re, tk2, git, pr, put, get⟩ =
              ⟨[Event.out .headerSetup, Event.out .autoDetectInfo,
                Event.out .usageError], .exited 1⟩ := by
            simp [main, if_pos hor, hg, if_pos hz]
          rw [hm1, hm2]
          exact ⟨rfl, rfl⟩
        · have hm1 : main ⟨oe, re, tk, git, pr, put, get⟩ =
              mainWithCoords ⟨oe, re, tk, git, pr, put, get⟩
                [Event.out .headerSetup, Event.out .autoDetectInfo] o2 r2 := by
            simp [main, if_pos hor, hg, if_neg hz]
          have hm2 : main ⟨oe, re, tk2, git, pr, put, get⟩ =
              mainWithCoords ⟨oe, re, tk2, git, pr, put, get⟩
                [Event.out .headerSetup, Event.out .autoDetectInfo] o2 r2 := by
            simp [main, if_pos hor, hg, if_neg hz]
          rw [hm1, hm2]
          exact mainWithCoords_token_indep _ _ _ o2 r2 rfl rfl rfl h1 h2
    · have hm1 : main ⟨oe, re, tk, git, pr, put, get⟩ =
          mainWithCoords ⟨oe, re, tk, git, pr, put, get⟩
            [Event.out .headerSetup] oe re := by
        simp [main, if_neg hor]
      have hm2 : main ⟨oe, re, tk2, git, pr, put, get⟩ =
          mainWithCoords ⟨oe, re, tk2, git, pr, put, get⟩
            [Event.out .headerSetup] oe re := by
        simp [main, if_neg hor]
      rw [hm1, hm2]
      exact mainWithCoords_token_indep _ _ _ oe re rfl rfl rfl h1 h2

/-- Claim C8 witness: a run issuing both requests carries the bearer
header, and two different nonempty tokens produce identical printed
output. -/
theorem claim_C8_witness :
    bearerAuth "tok".toList ∈ netAuths (main ⟨"o".toList, "r".toList,
      "tok".toList, .error (), some "y".toList, .ok 200 [] none,
      .exn []⟩).trace ∧
    outMsgs (main {(⟨"o".toList, "r".toList, "tok".toList, .error (),
      some "y".toList, .ok 200 [] none, .exn []⟩ : Env) with
        tokenEnv := "a".toList}).trace =
      outMsgs (main {(⟨"o".toList, "r".toList, "tok".toList, .error (),
        some "y".toList, .ok 200 [] none, .exn []⟩ : Env) with
          tokenEnv := "b".toList}).trace :=
  ⟨by decide,
   ((claim_C8 ⟨"o".toList, "r".toList, "tok".toList, .error (),
      some "y".toList, .ok 200 [] none, .exn []⟩).2
      "a".toList "b".toList (by decide) (by decide)).1⟩

/-- Claim C4 witness: the user answers `no`. -/
theorem claim_C4_witness :
    netEvents (main ⟨"o".toList, "r".toList, "tok".toList, .error (),
      some "no".toList, .exn [], .exn []⟩).trace = [] ∧
    (main ⟨"o".toList, "r".toList, "tok".toList, .error (),
      some "no".toList, .exn [], .exn []⟩).outcome = .exited 0 :=
  claim_C4 _ (Or.inl ⟨by decide, by decide⟩) (by decide) "no".toList rfl
    (by decide) (by decide)

end BranchProtection
